import Mathlib

/-!
# Verification of the modality-worklist bridge (`src/modality_worklist_scu.py`)

Shallow embedding of the per-transaction logic of the DICOM worklist
bridge: the schedule query (`get_worklist_from_db`), the C-FIND handler
(`handle_find`, including its per-row dataset builder), the C-ECHO
handler, and the C-STORE forwarding handler (`handle_store`).

Strings are modelled as `List Char`; machine-side Python string
operations (`strip`, `split`, `zfill`, `replace`, `join`) are embedded
as executable functions on `List Char`, faithful to Python semantics for
the inputs the program feeds them.  Database and network effects are
modelled by explicit outcome types: the embedding maps each outcome to
the value the Python function returns on that outcome, together with a
trace of which resources were opened and released on that path.
-/

set_option autoImplicit false

namespace DicomBridge

/-- Strings of the embedded program: lists of characters. -/
abbrev Str := List Char

/-! ## Python string primitives used by the source -/

/-- Python `str.split()` with no argument: split on runs of whitespace,
never producing empty tokens. -/
def pysplit : Str → List Str
  | [] => []
  | c :: cs =>
    if c.isWhitespace then pysplit cs
    else
      match cs with
      | [] => [[c]]
      | d :: _ =>
        if d.isWhitespace then [c] :: pysplit cs
        else
          match pysplit cs with
          | t :: ts => (c :: t) :: ts
          | [] => [[c]]

/-- Remove trailing whitespace (the tail half of Python `str.strip()`). -/
def rstrip : Str → Str
  | [] => []
  | c :: cs =>
    match rstrip cs with
    | [] => if c.isWhitespace then [] else [c]
    | r => c :: r

/-- Python `str.strip()` with no argument: drop leading and trailing
whitespace. -/
def pystrip (l : Str) : Str := rstrip (l.dropWhile (fun c => c.isWhitespace))

/-- Python `' '.join(tokens)`. -/
def joinSpace : List Str → Str
  | [] => []
  | [t] => t
  | t :: ts => t ++ ' ' :: joinSpace ts

/-- Python `s.zfill(w)` for an unsigned numeric string: left-pad with
zeros up to width `w`. -/
def pyzfill (w : Nat) (s : Str) : Str :=
  if w ≤ s.length then s else List.replicate (w - s.length) '0' ++ s

/-- Character substitution of `PatientID.replace('_', '.')`. -/
def replaceUnderscore (c : Char) : Char := if c = '_' then '.' else c

/-- Python `s.replace(':', '')`: delete every colon. -/
def removeColons (s : Str) : Str := s.filter (fun c => c != ':')

/-! ## The data model (columns of `RIS_WORKLIST_VIEW`, DICOM datasets) -/

/-- One schedule row, with one field per column of the `SELECT` in
`get_worklist_from_db` (lines 100-111), in the selected order.  The two
date columns (`APPOINTMENT_DATE`, `BIRTHDATE`) are modelled by their
`strftime('%Y%m%d')` rendering, the only operation the program applies
to them.  `APPOINTMENT_ID` and `PHYSYCIAN_ID` are numeric columns
(`str(...)` is applied to them), modelled as `Nat`; `PHYSYCIAN_ID = 0`
is Python-falsy, matching the source's truthiness test. -/
structure ScheduleRow where
  patientName : Str
  personalId : Str
  benefactorId : Str
  appointmentDate : Str
  hour : Str
  birthdate : Str
  sex : Str
  medicalCenterId : Str
  specialtyId : Str
  studyDescription : Str
  appointmentId : Nat
  physicianName : Str
  physicianId : Nat
  room : Str
  roomNumber : Str
  roomLetter : Str
  medicalCenterName : Str
  patientId : Str
  aeTitle : Str
  accountNumber : Str
  shift : Str
  deriving DecidableEq

/-- One entry of `ScheduledPerformingPhysicianSequence` (lines 184-187). -/
structure PerformingPhysician where
  personName : Str
  personIdentifier : Str
  deriving DecidableEq

/-- The nested scheduled-procedure-step dataset (lines 174-187). -/
structure ScheduledStep where
  startDate : Str
  startTime : Str
  description : Str
  stepID : Str
  modality : Str
  location : Str
  stationAETitle : Str
  performingPhysicianSequence : List PerformingPhysician
  deriving DecidableEq

/-- The top-level worklist response dataset built per row by
`handle_find` (lines 142-189). -/
structure DicomDataset where
  specificCharacterSet : Str
  patientID : Str
  patientName : Str
  patientBirthDate : Str
  patientSex : Str
  patientComments : Str
  accessionNumber : Str
  requestedProcedureID : Str
  requestedProcedureDescription : Str
  studyInstanceUID : Str
  referringPhysicianName : Str
  scheduledProcedureStepSequence : List ScheduledStep
  deriving DecidableEq

/-! ## The response builder (body of the `for row in worklist_entries`
loop of `handle_find`, lines 141-190) -/

/-- Name normalization of lines 148-156: strip the raw name, split it on
whitespace; with three or more tokens emit `last-two ++ ' ' ++ rest`,
otherwise the stripped name itself. -/
def formatName (raw : Str) : Str :=
  if 3 ≤ (pysplit (pystrip raw)).length then
    joinSpace ((pysplit (pystrip raw)).drop ((pysplit (pystrip raw)).length - 2)) ++
      ' ' :: joinSpace ((pysplit (pystrip raw)).take ((pysplit (pystrip raw)).length - 2))
  else pystrip raw

/-- One row to one hierarchical dataset, following lines 142-189
attribute by attribute. -/
def buildDataset (row : ScheduleRow) : DicomDataset :=
  let apptIdStr : Str := (Nat.repr row.appointmentId).data
  let cleanPid : Str := row.patientId.map replaceUnderscore
  let physician : PerformingPhysician :=
    ⟨if row.physicianName = [] then ("Unknown").data else row.physicianName,
     if row.physicianId = 0 then [] else (Nat.repr row.physicianId).data⟩
  let sched : ScheduledStep :=
    ⟨row.appointmentDate,
     removeColons row.hour,
     row.studyDescription,
     apptIdStr,
     row.specialtyId,
     row.medicalCenterName,
     row.aeTitle,
     [physician]⟩
  ⟨("ISO_IR 100").data,
   row.patientId,
   formatName row.patientName ++ (" - ").data ++ row.aeTitle,
   row.birthdate,
   row.sex,
   ("ACCOUNT_NUMBER: ").data ++ row.accountNumber,
   pyzfill 8 apptIdStr,
   pyzfill 6 apptIdStr,
   row.studyDescription,
   ("1.2.3.").data ++ apptIdStr ++ (".").data ++ cleanPid,
   (if row.physicianName = [] then ("Unknown").data else row.physicianName),
   [sched]⟩

/-! ## The schedule query (`get_worklist_from_db`, lines 70-127) -/

/-- How one execution of the body of `get_worklist_from_db` can go:
`connect` raises, `conn.cursor()` raises, `execute`/`fetchall` raises a
driver `DatabaseError`, some other exception is raised after the cursor
exists, or the fetch succeeds with a row list. -/
inductive DbExec where
  | connectRaises
  | cursorRaises
  | executeRaisesDb
  | executeRaisesOther
  | success (rows : List ScheduleRow)
  deriving DecidableEq

/-- Trace of one run of `get_worklist_from_db`: returned rows plus which
of the two resources were opened and which were closed. -/
structure DbTrace where
  rows : List ScheduleRow
  connOpened : Bool
  cursorOpened : Bool
  connClosed : Bool
  cursorClosed : Bool
  deriving DecidableEq

/-- `get_worklist_from_db` as a trace: both `except` clauses return `[]`
(lines 116-122); the `finally` clause (lines 123-127) closes exactly the
resources that are non-`None`, i.e. the ones that were opened. -/
def runGetWorklist : DbExec → DbTrace
  | .connectRaises => ⟨[], false, false, false, false⟩
  | .cursorRaises => ⟨[], true, false, true, false⟩
  | .executeRaisesDb => ⟨[], true, true, true, true⟩
  | .executeRaisesOther => ⟨[], true, true, true, true⟩
  | .success rows => ⟨rows, true, true, true, true⟩

/-- The value `get_worklist_from_db` returns to its caller. -/
def getWorklist (e : DbExec) : List ScheduleRow := (runGetWorklist e).rows

/-! ## The C-FIND handler (`handle_find`, lines 129-193) -/

/-- `handle_find` after the query: an empty row list yields the single
`(0x0000, None)` response (line 139); otherwise one `(0xFF00, dataset)`
pair per row, in row order (lines 141-193). -/
def handleFind (entries : List ScheduleRow) : List (Nat × Option DicomDataset) :=
  if entries.isEmpty then [(0x0000, none)]
  else entries.map (fun row => (0xFF00, some (buildDataset row)))

/-- `handle_echo` (lines 195-198): unconditional success. -/
def handleEcho (_requestorAe : Str) : Nat := 0x0000

/-! ## The C-STORE forwarding handler (`handle_store`, lines 200-231) -/

/-- Outcome of building the forwarding AE and calling `associate`:
the association is established, it is not established, or an exception
is raised before `assoc.is_established` is consulted. -/
inductive AssocResult where
  | established
  | notEstablished
  | raisesBefore
  deriving DecidableEq

/-- Outcome of the transfer once the association is established:
`send_c_store` returns a truthy status dataset carrying `code`, returns
a falsy/absent status, or the transfer (or the file-meta fixup) raises. -/
inductive SendResult where
  | statusOk (code : Nat)
  | emptyStatus
  | raisesDuring
  deriving DecidableEq

/-- Trace of one run of `handle_store`: the outward status code, whether
the outbound association was established, and whether `assoc.release()`
was called. -/
structure StoreTrace where
  status : Nat
  assocEstablished : Bool
  released : Bool
  deriving DecidableEq

/-- `handle_store` as a trace, following lines 203-231: exceptions are
caught and mapped to `0xC002` (line 229); an established association is
released (line 219) and a truthy status is passed through (line 223)
while a falsy one maps to `0xC001` (line 226); when the association is
not established the `try` block falls through to `return 0xC000`
(line 231); an exception raised after establishment skips the
`assoc.release()` call. -/
def handleStore : AssocResult → SendResult → StoreTrace
  | .raisesBefore, _ => ⟨0xC002, false, false⟩
  | .notEstablished, _ => ⟨0xC000, false, false⟩
  | .established, .statusOk code => ⟨code, true, true⟩
  | .established, .emptyStatus => ⟨0xC001, true, true⟩
  | .established, .raisesDuring => ⟨0xC002, true, false⟩

/-! ## The endpoint-identity match of the SQL `WHERE` clause -/

/-- Oracle's comma-splitting of the `AETitle` list column, used to state
what a "whole comma-delimited token" is.  `splitOnComma []` is `[[]]`:
the empty list column has one empty token. -/
def splitOnComma : Str → List Str
  | [] => [[]]
  | c :: cs =>
    if c = ',' then [] :: splitOnComma cs
    else
      match splitOnComma cs with
      | t :: ts => (c :: t) :: ts
      | [] => [[c]]

/-- Inverse of `splitOnComma`: re-join tokens with commas. -/
def joinComma : List Str → Str
  | [] => []
  | [t] => t
  | t :: ts => t ++ ',' :: joinComma ts

/-- The `WHERE REGEXP_LIKE(AETitle, '(^|,)' || :aetitle || '(,|$)')`
predicate of line 109, for a literal identity (one containing no regular
expression metacharacters, as DICOM AE titles in this deployment are):
the identity occurs somewhere in the column value, preceded by the start
of the value or a comma and followed by the end of the value or a comma. -/
def regexpTokenMatch (haystack ident : Str) : Prop :=
  ∃ pre post, haystack = pre ++ ident ++ post ∧
    (pre = [] ∨ ∃ q, pre = q ++ [',']) ∧
    (post = [] ∨ ∃ q, post = ',' :: q)

/-- Period-joining, used to state the UID-synthesis claim. -/
def dotJoin : List Str → Str
  | [] => []
  | [t] => t
  | t :: ts => t ++ '.' :: dotJoin ts

/-- A concrete row used to instantiate universally quantified theorems. -/
def sampleRow : ScheduleRow :=
  ⟨("JUAN PEREZ LOPEZ").data, ("P1").data, ("B1").data, ("20261001").data,
   ("08:30").data, ("19800101").data, ("M").data, ("MC1").data, ("CR").data,
   ("CHEST XRAY").data, 123, ("DR HOUSE").data, 7, ("R1").data, ("1").data,
   ("A").data, ("CENTRAL").data, ("ID_55").data, ("AE1").data, ("ACC9").data,
   ("DAY").data⟩

/-! ## Claim C1: outward status classification of the push handler -/

/-- Claim C1, counterexample: when the outbound association is not
established — an identifiable downstream session failure — the handler
returns `0xC000` (the designated "cannot understand" code, line 231),
not the designated "processing failure" code `0xC002` that the claim
requires for this case. -/
theorem c1_counterexample :
    (handleStore AssocResult.notEstablished SendResult.emptyStatus).status = 0xC000 ∧
    (handleStore AssocResult.notEstablished SendResult.emptyStatus).status ≠ 0xC002 := by
  decide

/-- Claim C1, amended: if the association is established and the
transfer returns a truthy status, the handler passes that status code
through unchanged (even when it is a failure status); if the association
is established but the status is falsy/absent it returns the
out-of-resources code `0xC001`; if the association is not established it
returns the cannot-understand code `0xC000`; and whenever an exception
is raised (before or after establishment) it returns the
processing-failure code `0xC002`. -/
theorem c1_amended_status_mapping :
    (∀ code, handleStore AssocResult.established (SendResult.statusOk code) =
      ⟨code, true, true⟩) ∧
    handleStore AssocResult.established SendResult.emptyStatus = ⟨0xC001, true, true⟩ ∧
    (∀ s, handleStore AssocResult.notEstablished s = ⟨0xC000, false, false⟩) ∧
    (∀ s, handleStore AssocResult.raisesBefore s = ⟨0xC002, false, false⟩) ∧
    handleStore AssocResult.established SendResult.raisesDuring = ⟨0xC002, true, false⟩ :=
  ⟨fun _ => rfl, rfl, fun _ => rfl, fun _ => rfl, rfl⟩

/-! ## Claim C2: resource release on every exit path -/

/-- Claim C2: the database connection and cursor are indeed closed on
every exit path of `get_worklist_from_db` (the `finally` clause closes
exactly what was opened), but the outbound association of `handle_store`
is NOT released on the path where `send_c_store` raises after the
association is established: the code reaches the `except` clause without
ever calling `assoc.release()`.  The second conjunct evaluates the
handler at that failing input: the association was established, yet
`released` is `false`. -/
theorem c2_store_release_leak :
    (∀ e : DbExec, (runGetWorklist e).connClosed = (runGetWorklist e).connOpened ∧
      (runGetWorklist e).cursorClosed = (runGetWorklist e).cursorOpened) ∧
    handleStore AssocResult.established SendResult.raisesDuring =
      ⟨0xC002, true, false⟩ := by
  refine ⟨fun e => ?_, rfl⟩
  cases e <;> exact ⟨rfl, rfl⟩

/-! ## Claim C3: query failures degrade to an empty row list -/

/-- Claim C3: on every failing execution of `get_worklist_from_db`
(connectivity failure, cursor failure, driver `DatabaseError`, or any
other exception) the function returns the empty row list — both
`except` clauses return `[]` rather than re-raising — which is exactly
its result on a successful query matching no rows. -/
theorem c3_query_failure_degrades_to_empty :
    ∀ e : DbExec, (∀ rows, e ≠ DbExec.success rows) →
      getWorklist e = [] ∧ getWorklist e = getWorklist (DbExec.success []) := by
  intro e h
  cases e with
  | connectRaises => exact ⟨rfl, rfl⟩
  | cursorRaises => exact ⟨rfl, rfl⟩
  | executeRaisesDb => exact ⟨rfl, rfl⟩
  | executeRaisesOther => exact ⟨rfl, rfl⟩
  | success rows => exact absurd rfl (h rows)

/-- Claim C3, witness at the connectivity-failure outcome. -/
theorem c3_query_failure_degrades_to_empty_witness :
    getWorklist DbExec.connectRaises = [] ∧
    getWorklist DbExec.connectRaises = getWorklist (DbExec.success []) :=
  c3_query_failure_degrades_to_empty DbExec.connectRaises
    (fun _ h => DbExec.noConfusion h)

/-! ## Claim C4: zero rows yield one success-no-data response -/

/-- Claim C4: whenever the schedule query returns zero rows, the Find
handler emits exactly the single response `(0x0000, None)` — one
"success, no matching data" status — with zero pending-tagged datasets,
and `0x0000` is distinct from the pending status and from every error
status the service surfaces. -/
theorem c4_zero_rows_single_success :
    ∀ e : DbExec, getWorklist e = [] →
      handleFind (getWorklist e) = [(0x0000, none)] ∧
      (handleFind (getWorklist e)).length = 1 ∧
      ((handleFind (getWorklist e)).filter (fun p => p.1 == 0xFF00)).length = 0 ∧
      (0x0000 : Nat) ≠ 0xFF00 ∧ (0x0000 : Nat) ≠ 0xA700 ∧
      (0x0000 : Nat) ≠ 0xC000 ∧ (0x0000 : Nat) ≠ 0xC001 ∧ (0x0000 : Nat) ≠ 0xC002 := by
  intro e h
  rw [h]
  refine ⟨rfl, rfl, rfl, ?_, ?_, ?_, ?_, ?_⟩ <;> decide

/-- Claim C4, witness at a successful query matching no rows. -/
theorem c4_zero_rows_single_success_witness :
    handleFind (getWorklist (DbExec.success [])) = [(0x0000, none)] ∧
    (handleFind (getWorklist (DbExec.success []))).length = 1 ∧
    ((handleFind (getWorklist (DbExec.success []))).filter (fun p => p.1 == 0xFF00)).length = 0 ∧
    (0x0000 : Nat) ≠ 0xFF00 ∧ (0x0000 : Nat) ≠ 0xA700 ∧
    (0x0000 : Nat) ≠ 0xC000 ∧ (0x0000 : Nat) ≠ 0xC001 ∧ (0x0000 : Nat) ≠ 0xC002 :=
  c4_zero_rows_single_success (DbExec.success []) rfl

/-! ## Claim C5: one pending response per row, in row order -/

/-- Claim C5: on a non-empty row list the Find handler emits exactly the
row-wise map `row ↦ (0xFF00, build row)`: one dataset per row, each
tagged with the pending status `0xFF00`, in exactly the order of the
rows returned by the query.  (The terminal success status after the last
pending response is appended by the protocol engine, outside this
handler.) -/
theorem c5_rows_pending_in_order :
    ∀ rows : List ScheduleRow, rows ≠ [] →
      handleFind rows = rows.map (fun row => (0xFF00, some (buildDataset row))) ∧
      (handleFind rows).length = rows.length ∧
      (∀ p ∈ handleFind rows, p.1 = 0xFF00) := by
  intro rows h
  have hne : rows.isEmpty = false := by
    cases rows with
    | nil => exact absurd rfl h
    | cons a l => rfl
  refine ⟨by simp [handleFind, hne], ?_, ?_⟩
  · simp [handleFind, hne]
  · intro p hp
    simp only [handleFind, hne, Bool.false_eq_true, if_false, List.mem_map] at hp
    obtain ⟨row, _, rfl⟩ := hp
    rfl

/-- Claim C5, witness at a one-row worklist. -/
theorem c5_rows_pending_in_order_witness :
    handleFind [sampleRow] = [sampleRow].map (fun row => (0xFF00, some (buildDataset row))) ∧
    (handleFind [sampleRow]).length = [sampleRow].length ∧
    (∀ p ∈ handleFind [sampleRow], p.1 = 0xFF00) :=
  c5_rows_pending_in_order [sampleRow] (List.cons_ne_nil sampleRow [])

/-! ## Whitespace lemmas: splitting commutes with stripping -/

/-- Unfolding `pysplit` at a whitespace head. -/
theorem pysplit_cons_ws (c : Char) (hc : c.isWhitespace) (cs : Str) :
    pysplit (c :: cs) = pysplit cs := by
  rw [pysplit.eq_def]
  simp [hc]

/-- Unfolding `pysplit` at a lone non-whitespace character. -/
theorem pysplit_singleton_not_ws (c : Char) (hc : ¬ c.isWhitespace) :
    pysplit [c] = [[c]] := by
  rw [pysplit.eq_def]
  simp [hc]

/-- Unfolding `pysplit` at a non-whitespace head followed by whitespace:
the head is a complete token. -/
theorem pysplit_cons_cons_ws (c d : Char) (hc : ¬ c.isWhitespace)
    (hd : d.isWhitespace) (x : Str) :
    pysplit (c :: d :: x) = [c] :: pysplit (d :: x) := by
  rw [pysplit.eq_def]
  simp [hc, hd]

/-- Unfolding `pysplit` at two adjacent non-whitespace characters: the
head glues onto the first token of the tail's split. -/
theorem pysplit_cons_cons_not_ws (c d : Char) (hc : ¬ c.isWhitespace)
    (hd : ¬ d.isWhitespace) (x : Str) :
    pysplit (c :: d :: x) =
      match pysplit (d :: x) with
      | t :: ts => (c :: t) :: ts
      | [] => [[c]] := by
  rw [pysplit.eq_def]
  simp [hc, hd]

/-- A list of whitespace characters splits into no tokens. -/
theorem pysplit_of_all_ws : ∀ l : Str, (∀ c ∈ l, c.isWhitespace) → pysplit l = []
  | [], _ => rfl
  | c :: cs, h => by
    have hc : c.isWhitespace := h c (List.mem_cons_self c cs)
    rw [pysplit_cons_ws c hc]
    exact pysplit_of_all_ws cs (fun d hd => h d (List.mem_cons_of_mem c hd))

/-- If `rstrip` empties a list, the list was all whitespace. -/
theorem all_ws_of_rstrip_eq_nil : ∀ l : Str, rstrip l = [] → ∀ c ∈ l, c.isWhitespace := by
  intro l
  induction l with
  | nil => intro _ c hc; cases hc
  | cons c cs ih =>
    intro h d hd
    cases hcs : rstrip cs with
    | nil =>
      have hc : c.isWhitespace := by
        by_contra hnc
        simp only [rstrip, hcs] at h
        simp [hnc] at h
      rcases List.mem_cons.mp hd with rfl | hd'
      · exact hc
      · exact ih hcs d hd'
    | cons r rs =>
      simp only [rstrip, hcs] at h
      cases h

/-- Every list is its `rstrip` followed by a whitespace tail. -/
theorem rstrip_decomp (l : Str) :
    ∃ w, l = rstrip l ++ w ∧ ∀ c ∈ w, c.isWhitespace := by
  induction l with
  | nil => exact ⟨[], rfl, fun c hc => absurd hc (List.not_mem_nil c)⟩
  | cons c cs ih =>
    obtain ⟨w, hw, hws⟩ := ih
    cases hcs : rstrip cs with
    | nil =>
      by_cases hc : c.isWhitespace
      · refine ⟨c :: cs, ?_, ?_⟩
        · simp [rstrip, hcs, hc]
        · intro d hd
          rcases List.mem_cons.mp hd with rfl | hd'
          · exact hc
          · exact all_ws_of_rstrip_eq_nil cs hcs d hd'
      · refine ⟨cs, ?_, all_ws_of_rstrip_eq_nil cs hcs⟩
        simp [rstrip, hcs, hc]
    | cons r rs =>
      refine ⟨w, ?_, hws⟩
      have h1 : rstrip (c :: cs) = c :: rstrip cs := by simp [rstrip, hcs]
      rw [h1, List.cons_append, ← hw]

/-- Appending trailing whitespace does not change the token split. -/
theorem pysplit_append_ws (w : Str) (hw : ∀ c ∈ w, c.isWhitespace) :
    ∀ a : Str, pysplit (a ++ w) = pysplit a := by
  intro a
  induction a with
  | nil => simpa using pysplit_of_all_ws w hw
  | cons c a' ih =>
    show pysplit (c :: (a' ++ w)) = pysplit (c :: a')
    by_cases hc : c.isWhitespace
    · rw [pysplit_cons_ws c hc, pysplit_cons_ws c hc, ih]
    · cases a' with
      | nil =>
        show pysplit (c :: w) = pysplit [c]
        cases w with
        | nil => rfl
        | cons d w' =>
          have hd : d.isWhitespace := hw d (List.mem_cons_self d w')
          rw [pysplit_cons_cons_ws c d hc hd, pysplit_of_all_ws (d :: w') hw,
            pysplit_singleton_not_ws c hc]
      | cons d a'' =>
        show pysplit (c :: d :: (a'' ++ w)) = pysplit (c :: d :: a'')
        have ihd : pysplit (d :: (a'' ++ w)) = pysplit (d :: a'') := ih
        by_cases hd : d.isWhitespace
        · rw [pysplit_cons_cons_ws c d hc hd, pysplit_cons_cons_ws c d hc hd, ihd]
        · rw [pysplit_cons_cons_not_ws c d hc hd, pysplit_cons_cons_not_ws c d hc hd,
            ihd]

/-- Dropping leading whitespace does not change the token split. -/
theorem pysplit_dropWhile (l : Str) :
    pysplit (l.dropWhile (fun c => c.isWhitespace)) = pysplit l := by
  induction l with
  | nil => rfl
  | cons c cs ih =>
    by_cases hc : c.isWhitespace
    · rw [List.dropWhile_cons, if_pos hc, ih, pysplit_cons_ws c hc]
    · rw [List.dropWhile_cons, if_neg hc]

/-- Stripping a string does not change its whitespace-token split. -/
theorem pysplit_pystrip (l : Str) : pysplit (pystrip l) = pysplit l := by
  obtain ⟨w, hw, hws⟩ := rstrip_decomp (l.dropWhile (fun c => c.isWhitespace))
  calc pysplit (pystrip l)
      = pysplit (rstrip (l.dropWhile fun c => c.isWhitespace)) := rfl
    _ = pysplit (rstrip (l.dropWhile fun c => c.isWhitespace) ++ w) :=
        (pysplit_append_ws w hws _).symm
    _ = pysplit (l.dropWhile fun c => c.isWhitespace) := by rw [← hw]
    _ = pysplit l := pysplit_dropWhile l

/-! ## Claim C6: name normalization -/

/-- Claim C6, counterexample: the name `"A B "` splits into fewer than
three tokens, yet it does not pass through unchanged — the code strips
surrounding whitespace before splitting and returns the stripped name
`"A B"` in the under-three-token branch. -/
theorem c6_counterexample :
    (pysplit (("A B ").data)).length < 3 ∧
    formatName (("A B ").data) ≠ ("A B ").data := by
  decide

/-- Claim C6, amended: the normalization first strips surrounding
whitespace, then splits on whitespace.  With three or more tokens it
emits the last two tokens (joined by a space) followed by the preceding
tokens, so `"A B C"` becomes `"B C A"`; with fewer than three tokens the
stripped name passes through — unchanged exactly when the name carries
no surrounding whitespace. -/
theorem c6_amended_name_normalization :
    ∀ raw : Str,
      (3 ≤ (pysplit raw).length →
        formatName raw =
          joinSpace ((pysplit raw).drop ((pysplit raw).length - 2)) ++
            ' ' :: joinSpace ((pysplit raw).take ((pysplit raw).length - 2))) ∧
      ((pysplit raw).length < 3 → formatName raw = pystrip raw) := by
  intro raw
  have hsp := pysplit_pystrip raw
  constructor
  · intro h3
    simp only [formatName]
    rw [hsp, if_pos h3]
  · intro hlt
    simp only [formatName]
    rw [hsp, if_neg (by omega)]

/-- Claim C6, witness: on `"JUAN PEREZ LOPEZ"` (three tokens) the
amended theorem applies and the emitted name is `"PEREZ LOPEZ JUAN"`;
on `"A B"` (two tokens, no surrounding whitespace) it passes through. -/
theorem c6_amended_name_normalization_witness :
    formatName (("JUAN PEREZ LOPEZ").data) =
      joinSpace ((pysplit (("JUAN PEREZ LOPEZ").data)).drop
          ((pysplit (("JUAN PEREZ LOPEZ").data)).length - 2)) ++
        ' ' :: joinSpace ((pysplit (("JUAN PEREZ LOPEZ").data)).take
          ((pysplit (("JUAN PEREZ LOPEZ").data)).length - 2)) ∧
    formatName (("A B").data) = pystrip (("A B").data) :=
  ⟨(c6_amended_name_normalization (("JUAN PEREZ LOPEZ").data)).1 (by decide),
   (c6_amended_name_normalization (("A B").data)).2 (by decide)⟩

/-! ## Claim C7: fixed-width zero-padded identifiers -/

/-- Padding specification of `pyzfill` for inputs within the width. -/
theorem pyzfill_spec (w : Nat) (s : Str) (h : s.length ≤ w) :
    pyzfill w s = List.replicate (w - s.length) '0' ++ s ∧ (pyzfill w s).length = w := by
  unfold pyzfill
  by_cases h2 : w ≤ s.length
  · have heq : s.length = w := le_antisymm h h2
    rw [if_pos h2]
    constructor
    · rw [heq, Nat.sub_self]
      simp
    · exact heq
  · rw [if_neg h2]
    refine ⟨rfl, ?_⟩
    rw [List.length_append, List.length_replicate]
    omega

/-- Claim C7: for an appointment id of at most 8 decimal digits the
accession number is the id left-padded with zeros to exactly 8 digits,
and for an id of at most 6 digits the requested procedure id is the id
left-padded with zeros to exactly 6 digits. -/
theorem c7_identifier_widths :
    ∀ row : ScheduleRow,
      ((Nat.repr row.appointmentId).data.length ≤ 8 →
        (buildDataset row).accessionNumber =
          List.replicate (8 - (Nat.repr row.appointmentId).data.length) '0' ++
            (Nat.repr row.appointmentId).data ∧
        ((buildDataset row).accessionNumber).length = 8) ∧
      ((Nat.repr row.appointmentId).data.length ≤ 6 →
        (buildDataset row).requestedProcedureID =
          List.replicate (6 - (Nat.repr row.appointmentId).data.length) '0' ++
            (Nat.repr row.appointmentId).data ∧
        ((buildDataset row).requestedProcedureID).length = 6) := by
  intro row
  constructor
  · intro h
    have hacc : (buildDataset row).accessionNumber =
        pyzfill 8 (Nat.repr row.appointmentId).data := rfl
    rw [hacc]
    exact pyzfill_spec 8 _ h
  · intro h
    have hproc : (buildDataset row).requestedProcedureID =
        pyzfill 6 (Nat.repr row.appointmentId).data := rfl
    rw [hproc]
    exact pyzfill_spec 6 _ h

/-- Claim C7, witness at appointment id 123. -/
theorem c7_identifier_widths_witness :
    ((buildDataset sampleRow).accessionNumber =
      List.replicate (8 - (Nat.repr sampleRow.appointmentId).data.length) '0' ++
        (Nat.repr sampleRow.appointmentId).data ∧
      ((buildDataset sampleRow).accessionNumber).length = 8) ∧
    ((buildDataset sampleRow).requestedProcedureID =
      List.replicate (6 - (Nat.repr sampleRow.appointmentId).data.length) '0' ++
        (Nat.repr sampleRow.appointmentId).data ∧
      ((buildDataset sampleRow).requestedProcedureID).length = 6) :=
  ⟨(c7_identifier_widths sampleRow).1 (by decide),
   (c7_identifier_widths sampleRow).2 (by decide)⟩

/-! ## Claim C9: study identifier synthesis -/

/-- Claim C9: the study identifier of every built dataset equals the
period-joined concatenation of the fixed root `1.2.3`, the appointment
id, and the patient identifier with every underscore replaced by a
period. -/
theorem c9_uid_synthesis :
    ∀ row : ScheduleRow,
      (buildDataset row).studyInstanceUID =
        dotJoin [("1.2.3").data, (Nat.repr row.appointmentId).data,
          row.patientId.map replaceUnderscore] := by
  intro row
  have hb : (buildDataset row).studyInstanceUID =
      ("1.2.3.").data ++ (Nat.repr row.appointmentId).data ++ (".").data ++
        row.patientId.map replaceUnderscore := rfl
  have h1 : ("1.2.3.").data = ("1.2.3").data ++ ['.'] := rfl
  have h2 : (".").data = ['.'] := rfl
  rw [hb, h1, h2]
  simp [dotJoin, List.append_assoc]

/-! ## Claim C10: the patient-name attribute carries the target AE -/

/-- Claim C10: the patient-name attribute of every built dataset is the
normalized name followed by the literal `" - "` and the row's target
endpoint identity — never the normalized name alone. -/
theorem c10_patient_name_suffixed :
    ∀ row : ScheduleRow,
      (buildDataset row).patientName =
        formatName row.patientName ++ (" - ").data ++ row.aeTitle ∧
      (buildDataset row).patientName ≠ formatName row.patientName := by
  intro row
  refine ⟨rfl, fun h => ?_⟩
  have hl := congrArg List.length h
  have h3 : ((" - ").data).length = 3 := rfl
  rw [show (buildDataset row).patientName =
      formatName row.patientName ++ (" - ").data ++ row.aeTitle from rfl] at hl
  simp only [List.length_append, h3] at hl
  omega

/-! ## Comma-token lemmas for the `WHERE` clause -/

/-- Unfolding `splitOnComma` at a comma. -/
theorem splitOnComma_cons_comma (cs : Str) :
    splitOnComma (',' :: cs) = [] :: splitOnComma cs := by
  rw [splitOnComma.eq_def]
  simp

/-- Unfolding `splitOnComma` at a non-comma head, given the split of the
tail. -/
theorem splitOnComma_cons_ne (c : Char) (hc : c ≠ ',') (cs : Str)
    (t : Str) (ts : List Str) (h : splitOnComma cs = t :: ts) :
    splitOnComma (c :: cs) = (c :: t) :: ts := by
  rw [splitOnComma.eq_def]
  simp [hc, h]

/-- `splitOnComma` always produces at least one token. -/
theorem splitOnComma_ne_nil (l : Str) : splitOnComma l ≠ [] := by
  rw [splitOnComma.eq_def]
  cases l with
  | nil => simp
  | cons c cs =>
    by_cases hc : c = ','
    · simp [hc]
    · simp only [hc, if_false]
      cases h : splitOnComma cs <;> simp

/-- Unfolding `joinComma` on a list of two or more tokens. -/
theorem joinComma_cons (t : Str) (ts : List Str) (h : ts ≠ []) :
    joinComma (t :: ts) = t ++ ',' :: joinComma ts := by
  cases ts with
  | nil => exact absurd rfl h
  | cons u us => rfl

/-- Re-joining the comma-split of a list restores it. -/
theorem joinComma_splitOnComma : ∀ l : Str, joinComma (splitOnComma l) = l
  | [] => rfl
  | c :: cs => by
    have ih := joinComma_splitOnComma cs
    by_cases hc : c = ','
    · subst hc
      rw [splitOnComma_cons_comma,
        joinComma_cons [] (splitOnComma cs) (splitOnComma_ne_nil cs),
        List.nil_append, ih]
    · obtain ⟨t, ts, h⟩ : ∃ t ts, splitOnComma cs = t :: ts := by
        cases h : splitOnComma cs with
        | nil => exact absurd h (splitOnComma_ne_nil cs)
        | cons t ts => exact ⟨t, ts, rfl⟩
      rw [splitOnComma_cons_ne c hc cs t ts h]
      rw [h] at ih
      cases ts with
      | nil =>
        show c :: t = c :: cs
        rw [show joinComma [t] = t from rfl] at ih
        rw [ih]
      | cons u us =>
        rw [joinComma_cons (c :: t) (u :: us) (by simp),
          joinComma_cons t (u :: us) (by simp)] at *
        rw [List.cons_append, ih]

/-- Splitting distributes over a comma-separated concatenation. -/
theorem splitOnComma_append_comma :
    ∀ a b : Str, splitOnComma (a ++ ',' :: b) = splitOnComma a ++ splitOnComma b
  | [], b => by
    show splitOnComma (',' :: b) = splitOnComma [] ++ splitOnComma b
    rw [splitOnComma_cons_comma]
    rfl
  | c :: a', b => by
    have ih := splitOnComma_append_comma a' b
    show splitOnComma (c :: (a' ++ ',' :: b)) = splitOnComma (c :: a') ++ splitOnComma b
    by_cases hc : c = ','
    · subst hc
      rw [splitOnComma_cons_comma, splitOnComma_cons_comma, ih]
      rfl
    · obtain ⟨t, ts, h⟩ : ∃ t ts, splitOnComma a' = t :: ts := by
        cases h : splitOnComma a' with
        | nil => exact absurd h (splitOnComma_ne_nil a')
        | cons t ts => exact ⟨t, ts, rfl⟩
      have hsplit : splitOnComma (a' ++ ',' :: b) = t :: (ts ++ splitOnComma b) := by
        rw [ih, h]
        rfl
      rw [splitOnComma_cons_ne c hc _ t (ts ++ splitOnComma b) hsplit,
        splitOnComma_cons_ne c hc a' t ts h]
      rfl

/-- A comma-free list is its own single token. -/
theorem splitOnComma_no_comma : ∀ l : Str, (∀ c ∈ l, c ≠ ',') → splitOnComma l = [l]
  | [], _ => rfl
  | c :: cs, h => by
    have hc : c ≠ ',' := h c (List.mem_cons_self c cs)
    have ih := splitOnComma_no_comma cs (fun d hd => h d (List.mem_cons_of_mem c hd))
    rw [splitOnComma_cons_ne c hc cs cs [] ih]

/-- Joining a token-list prefix produces a prefix that is empty or ends
in a comma. -/
theorem joinComma_append_decomp :
    ∀ (ts₁ rest : List Str), rest ≠ [] →
      ∃ pre, joinComma (ts₁ ++ rest) = pre ++ joinComma rest ∧
        (pre = [] ∨ ∃ q, pre = q ++ [','])
  | [], _, _ => ⟨[], rfl, Or.inl rfl⟩
  | t :: ts₁', rest, hr => by
    obtain ⟨pre, hpre, hcond⟩ := joinComma_append_decomp ts₁' rest hr
    have hne : ts₁' ++ rest ≠ [] := by
      intro h
      exact hr (List.append_eq_nil.mp h).2
    refine ⟨t ++ ',' :: pre, ?_, ?_⟩
    · show joinComma ((t :: ts₁') ++ rest) = (t ++ ',' :: pre) ++ joinComma rest
      rw [List.cons_append, joinComma_cons t (ts₁' ++ rest) hne, hpre]
      simp [List.append_assoc]
    · rcases hcond with rfl | ⟨q, rfl⟩
      · exact Or.inr ⟨t, rfl⟩
      · exact Or.inr ⟨t ++ ',' :: q, by simp⟩

/-- Forward direction: a whole token of the column value yields a
delimited occurrence of the identity. -/
theorem regexp_of_mem (haystack ident : Str)
    (h : ident ∈ splitOnComma haystack) : regexpTokenMatch haystack ident := by
  obtain ⟨ts₁, ts₂, hsplit⟩ := List.append_of_mem h
  obtain ⟨pre, hpre, hcondpre⟩ := joinComma_append_decomp ts₁ (ident :: ts₂) (by simp)
  have hjoin : haystack = joinComma (splitOnComma haystack) :=
    (joinComma_splitOnComma haystack).symm
  rw [hsplit, hpre] at hjoin
  cases ts₂ with
  | nil =>
    refine ⟨pre, [], ?_, hcondpre, Or.inl rfl⟩
    rw [hjoin]
    simp [joinComma]
  | cons u us =>
    refine ⟨pre, ',' :: joinComma (u :: us), ?_, hcondpre,
      Or.inr ⟨joinComma (u :: us), rfl⟩⟩
    rw [hjoin, joinComma_cons ident (u :: us) (by simp)]
    simp [List.append_assoc]

/-- Backward direction: for a comma-free identity, a delimited
occurrence makes the identity a whole token of the column value. -/
theorem mem_of_regexp (haystack ident : Str) (hid : (',' : Char) ∉ ident)
    (h : regexpTokenMatch haystack ident) : ident ∈ splitOnComma haystack := by
  obtain ⟨pre, post, heq, hpre, hpost⟩ := h
  have hno : ∀ c ∈ ident, c ≠ ',' := fun c hc he => hid (he ▸ hc)
  have hhead : ident ∈ splitOnComma (ident ++ post) := by
    rcases hpost with rfl | ⟨q, rfl⟩
    · rw [List.append_nil, splitOnComma_no_comma ident hno]
      simp
    · rw [splitOnComma_append_comma ident q, splitOnComma_no_comma ident hno]
      exact List.mem_append_left _ (by simp)
  rcases hpre with rfl | ⟨q, rfl⟩
  · rw [heq]
    simpa using hhead
  · subst heq
    have hassoc : (q ++ [',']) ++ ident ++ post = q ++ ',' :: (ident ++ post) := by
      simp [List.append_assoc]
    rw [hassoc, splitOnComma_append_comma q (ident ++ post)]
    exact List.mem_append_right _ hhead

/-- The SQL predicate is exactly whole-token membership, for comma-free
identities. -/
theorem regexp_iff_whole_token (haystack ident : Str)
    (hid : (',' : Char) ∉ ident) :
    regexpTokenMatch haystack ident ↔ ident ∈ splitOnComma haystack :=
  ⟨mem_of_regexp haystack ident hid, regexp_of_mem haystack ident⟩

/-! ## Claim C8: whole-token endpoint-identity matching -/

/-- Claim C8: the query's `WHERE` predicate holds exactly when the
requestor identity equals a whole comma-delimited token of the row's
endpoint-identity list column; in particular `AE1` matches the list
`AE1,AE2` but not the list `AE10,AE2`. -/
theorem c8_whole_token_matching :
    (∀ haystack ident : Str, (',' : Char) ∉ ident →
      (regexpTokenMatch haystack ident ↔ ident ∈ splitOnComma haystack)) ∧
    regexpTokenMatch (("AE1,AE2").data) (("AE1").data) ∧
    ¬ regexpTokenMatch (("AE10,AE2").data) (("AE1").data) := by
  refine ⟨fun h i hid => regexp_iff_whole_token h i hid, ?_, ?_⟩
  · exact (regexp_iff_whole_token _ _ (by decide)).mpr (by decide)
  · intro hm
    have hmem := (regexp_iff_whole_token _ _ (by decide)).mp hm
    exact absurd hmem (by decide)

/-- Claim C8, witness at the identity `AE1` and list `AE1,AE2`. -/
theorem c8_whole_token_matching_witness :
    regexpTokenMatch (("AE1,AE2").data) (("AE1").data) ↔
      ("AE1").data ∈ splitOnComma (("AE1,AE2").data) :=
  c8_whole_token_matching.1 (("AE1,AE2").data) (("AE1").data) (by decide)

end DicomBridge
